import Mathlib

/-!
Shallow embedding of the VGA text-buffer writer from `src/vga_buffer.rs`
of the BoredOS repository, together with proofs of the specified
properties of its operations.

The device buffer is modelled as a total function from (row, column)
coordinates to screen cells; each volatile cell write of the source
becomes a pointwise functional update, and each loop of the source
becomes a structural recursion that performs the same sequence of
updates in the same order.  Machine bytes are modelled as `Nat`
(reduced mod 256 where the source's `u8` arithmetic could wrap).
-/

namespace BoredOS

/-- The 16 fixed VGA colors of the `Color` enum (`repr(u8)`, discriminants 0–15). -/
inductive Color where
  | Black
  | Blue
  | Green
  | Cyan
  | Red
  | Magenta
  | Brown
  | LightGray
  | DarkGray
  | LightBlue
  | LightGreen
  | LightCyan
  | LightRed
  | Pink
  | Yellow
  | White
deriving DecidableEq

/-- The `u8` discriminant of a `Color` variant (`color as u8` in the source). -/
def Color.toNat : Color → Nat
  | .Black => 0
  | .Blue => 1
  | .Green => 2
  | .Cyan => 3
  | .Red => 4
  | .Magenta => 5
  | .Brown => 6
  | .LightGray => 7
  | .DarkGray => 8
  | .LightBlue => 9
  | .LightGreen => 10
  | .LightCyan => 11
  | .LightRed => 12
  | .Pink => 13
  | .Yellow => 14
  | .White => 15

/-- The packed color attribute byte (`struct ColorCode(u8)` in the source). -/
structure ColorCode where
  code : Nat
deriving DecidableEq

/-- `ColorCode::new`: packs `(background as u8) << 4 | (foreground as u8)` into one byte. -/
def ColorCode.new (foreground background : Color) : ColorCode :=
  ⟨((background.toNat <<< 4) ||| foreground.toNat) % 256⟩

/-- One character cell: glyph byte then color byte (`struct ScreenChar`, `repr(C)`). -/
structure ScreenChar where
  ascii_character : Nat
  color_code : ColorCode
deriving DecidableEq

/-- `BUFFER_HEIGHT`: number of rows of the VGA text grid. -/
def BUFFER_HEIGHT : Nat := 25

/-- `BUFFER_WIDTH`: number of columns of the VGA text grid. -/
def BUFFER_WIDTH : Nat := 80

/-- The device-mapped grid (`struct Buffer`), modelled as a total function
from (row, column) to the cell stored there. -/
def Buffer := Nat → Nat → ScreenChar

/-- A single volatile cell write: `self.buffer.chars[r][c].write(v)`. -/
def bufWrite (buf : Buffer) (r c : Nat) (v : ScreenChar) : Buffer :=
  fun r' c' => if r' = r ∧ c' = c then v else buf r' c'

/-- The writer state (`struct Writer`): cursor column, current color, and the grid. -/
structure Writer where
  column_position : Nat
  color_code : ColorCode
  buffer : Buffer

/-- The blank cell written by `clear_row`: space glyph with the given color. -/
def blank (cc : ColorCode) : ScreenChar :=
  ⟨32, cc⟩

/-- The inner loop of `clear_row`: `for col in 0..n` write the blank cell
at `(row, col)`.  `clearRowCols buf row cc n` has performed the writes for
columns `0, 1, …, n-1`, in that order. -/
def clearRowCols (buf : Buffer) (row : Nat) (cc : ColorCode) : Nat → Buffer
  | 0 => buf
  | n + 1 => bufWrite (clearRowCols buf row cc n) row n (blank cc)

/-- `Writer::clear_row`: overwrite every column of `row` with the blank cell
built from the writer's current color code. -/
def Writer.clear_row (w : Writer) (row : Nat) : Writer :=
  { w with buffer := clearRowCols w.buffer row w.color_code BUFFER_WIDTH }

/-- The inner loop of `new_line` for a fixed `row`: `for col in 0..n` read
`chars[row][col]` (from the current buffer state) and write it to
`chars[row-1][col]`, columns in ascending order. -/
def copyRowCols (buf : Buffer) (row : Nat) : Nat → Buffer
  | 0 => buf
  | n + 1 =>
    let b := copyRowCols buf row n
    bufWrite b (row - 1) n (b row n)

/-- The outer loop of `new_line`: `for row in 1..(n+1)` run the column copy
for that row; `newLineRows buf n` has processed rows `1, …, n` in ascending
order. -/
def newLineRows (buf : Buffer) : Nat → Buffer
  | 0 => buf
  | n + 1 => copyRowCols (newLineRows buf n) (n + 1) BUFFER_WIDTH

/-- `Writer::new_line`: shift rows `1..BUFFER_HEIGHT` up by one (ascending,
column by column), clear the last row, and reset the cursor column to 0. -/
def Writer.new_line (w : Writer) : Writer :=
  let w1 : Writer := { w with buffer := newLineRows w.buffer (BUFFER_HEIGHT - 1) }
  let w2 := w1.clear_row (BUFFER_HEIGHT - 1)
  { w2 with column_position := 0 }

/-- `Writer::write_byte`: a newline byte (10) runs `new_line`; any other byte
first runs `new_line` if the cursor is at or past `BUFFER_WIDTH`, then writes
`ScreenChar { ascii_character := byte, color_code }` at
`(BUFFER_HEIGHT - 1, column_position)` and advances the cursor by one. -/
def Writer.write_byte (w : Writer) (byte : Nat) : Writer :=
  if byte = 10 then
    w.new_line
  else
    let w1 := if w.column_position ≥ BUFFER_WIDTH then w.new_line else w
    let row := BUFFER_HEIGHT - 1
    let col := w1.column_position
    let color_code := w1.color_code
    { w1 with
      buffer := bufWrite w1.buffer row col ⟨byte, color_code⟩
      column_position := w1.column_position + 1 }

/-- `Writer::write_string`: for each byte of the input, forward it to
`write_byte` if it is printable ASCII (0x20–0x7e) or the newline byte,
and forward the fallback glyph 0xfe otherwise.  Strings are modelled as
their byte sequences (`s.bytes()`). -/
def Writer.write_string (w : Writer) (s : List Nat) : Writer :=
  s.foldl
    (fun acc byte =>
      if (0x20 ≤ byte ∧ byte ≤ 0x7e) ∨ byte = 10 then acc.write_byte byte
      else acc.write_byte 0xfe)
    w

/-- Iterated `write_byte` over a byte sequence (used to state properties of
consecutive `write_byte` calls). -/
def Writer.write_bytes (w : Writer) (s : List Nat) : Writer :=
  s.foldl Writer.write_byte w

/-- Instrumentation: how many times one `write_byte` call invokes
`new_line` (the scroll-and-reset), mirroring the branch structure of
`Writer::write_byte`. -/
def Writer.write_byte_scrolls (w : Writer) (byte : Nat) : Nat :=
  if byte = 10 then 1
  else if w.column_position ≥ BUFFER_WIDTH then 1
  else 0

/-- Instrumentation: total number of scrolls performed by iterated
`write_byte` over a byte sequence. -/
def Writer.write_bytes_scrolls (w : Writer) : List Nat → Nat
  | [] => 0
  | b :: rest => w.write_byte_scrolls b + (w.write_byte b).write_bytes_scrolls rest

/-- Instrumentation: total number of scrolls performed by `write_string`,
mirroring its per-byte printable-range dispatch. -/
def Writer.write_string_scrolls (w : Writer) : List Nat → Nat
  | [] => 0
  | b :: rest =>
    if (0x20 ≤ b ∧ b ≤ 0x7e) ∨ b = 10 then
      w.write_byte_scrolls b + (w.write_byte b).write_string_scrolls rest
    else
      w.write_byte_scrolls 0xfe + (w.write_byte 0xfe).write_string_scrolls rest

/-- Instrumentation: the (row, column) pairs at which `clear_row row`
accesses the grid, in loop order. -/
def clear_row_accesses (row : Nat) : List (Nat × Nat) :=
  (List.range BUFFER_WIDTH).map fun c => (row, c)

/-- Instrumentation: the grid coordinates accessed while copying source row
`i + 1` onto row `i` in `new_line` (each column is read at `(i+1, c)` and
written at `(i, c)`). -/
def rowCopyAccesses (i : Nat) : List (Nat × Nat) :=
  ((List.range BUFFER_WIDTH).map fun c => ((i + 1 : Nat), c))
    ++ (List.range BUFFER_WIDTH).map fun c => (i, c)

/-- Instrumentation: all grid coordinates accessed by `new_line` (the row
copies for source rows `1..BUFFER_HEIGHT`, then the clearing of the last
row). -/
def new_line_accesses : List (Nat × Nat) :=
  ((List.range (BUFFER_HEIGHT - 1)).map rowCopyAccesses).flatten
    ++ clear_row_accesses (BUFFER_HEIGHT - 1)

/-- Instrumentation: all grid coordinates accessed by one `write_byte` call,
mirroring its branch structure (newline → scroll only; overflow → scroll
then write at column 0; otherwise write at the current column). -/
def Writer.write_byte_accesses (w : Writer) (byte : Nat) : List (Nat × Nat) :=
  if byte = 10 then new_line_accesses
  else if w.column_position ≥ BUFFER_WIDTH then
    new_line_accesses ++ [(BUFFER_HEIGHT - 1, 0)]
  else
    [(BUFFER_HEIGHT - 1, w.column_position)]

/-- Instrumentation: all grid coordinates accessed by `write_string`,
following its per-byte dispatch. -/
def Writer.write_string_accesses (w : Writer) : List Nat → List (Nat × Nat)
  | [] => []
  | b :: rest =>
    if (0x20 ≤ b ∧ b ≤ 0x7e) ∨ b = 10 then
      w.write_byte_accesses b ++ (w.write_byte b).write_string_accesses rest
    else
      w.write_byte_accesses 0xfe ++ (w.write_byte 0xfe).write_string_accesses rest

/-- Spec-side byte sanitizer, written from the spec's words ("if it is the
newline byte or falls in the printable ASCII range [0x20, 0x7e], forward it
unchanged; otherwise substitute 0xFE"), for comparison with the dispatch
inside `Writer.write_string`. -/
def sanitizeSpec (b : Nat) : Nat :=
  if b = 10 ∨ (0x20 ≤ b ∧ b ≤ 0x7e) then b else 0xfe

/-- The error type of the formatted-output adapter (`fmt::Error`). -/
inductive FmtError where
  | error
deriving DecidableEq

/-- The `fmt::Write` implementation: `write_str` runs `write_string` and
unconditionally returns `Ok(())`. -/
def Writer.write_str (w : Writer) (s : List Nat) : Writer × Except FmtError Unit :=
  (w.write_string s, Except.ok ())

/-- `_print`: lock the writer, run the formatted write, and `unwrap` the
result — `none` models the panic taken when `unwrap` sees an error.  The
formatted arguments are modelled by the byte sequence they render to. -/
def Writer.print_unwrap (w : Writer) (s : List Nat) : Option Writer :=
  match w.write_str s with
  | (w1, Except.ok ()) => some w1
  | (_, Except.error _) => none

/-- `println!()` with no arguments: expands to `print!("\n")`, so the
writer receives exactly the byte sequence `[10]`. -/
def Writer.println_no_args (w : Writer) : Option Writer :=
  w.print_unwrap [10]

/-- The state the global `WRITER` singleton is lazily initialized with:
column 0, yellow-on-black color, over the given device buffer. -/
def initialWriter (buf : Buffer) : Writer :=
  { column_position := 0
    color_code := ColorCode.new Color.Yellow Color.Black
    buffer := buf }

/-- An all-blank concrete buffer, used to instantiate closed statements. -/
def blankBuffer : Buffer :=
  fun _ _ => blank (ColorCode.new Color.Yellow Color.Black)

/-- A concrete buffer whose bottom-left cell is not blank (it holds the
glyph 65), used to instantiate closed statements about scrolling. -/
def markedBuffer : Buffer :=
  fun r c =>
    if r = BUFFER_HEIGHT - 1 ∧ c = 0 then ⟨65, ColorCode.new Color.Yellow Color.Black⟩
    else blank (ColorCode.new Color.Yellow Color.Black)

/-! ## Pointwise characterization of the buffer loops -/

theorem bufWrite_same (buf : Buffer) (r c : Nat) (v : ScreenChar) :
    bufWrite buf r c v r c = v := by
  simp [bufWrite]

theorem bufWrite_other (buf : Buffer) (r c : Nat) (v : ScreenChar) (r' c' : Nat)
    (h : ¬(r' = r ∧ c' = c)) : bufWrite buf r c v r' c' = buf r' c' := by
  simp only [bufWrite, if_neg h]

theorem clearRowCols_eval (buf : Buffer) (row : Nat) (cc : ColorCode) (n : Nat) :
    ∀ r c, clearRowCols buf row cc n r c =
      if r = row ∧ c < n then blank cc else buf r c := by
  induction n with
  | zero => intro r c; simp [clearRowCols]
  | succ n ih =>
    intro r c
    simp only [clearRowCols, bufWrite, ih]
    split_ifs <;> first | rfl | omega

theorem copyRowCols_eval (buf : Buffer) (row : Nat) (hrow : 1 ≤ row) (n : Nat) :
    ∀ r c, copyRowCols buf row n r c =
      if r = row - 1 ∧ c < n then buf row c else buf r c := by
  induction n with
  | zero => intro r c; simp [copyRowCols]
  | succ n ih =>
    intro r c
    simp only [copyRowCols, bufWrite, ih, ite_self]
    split_ifs <;> first | rfl | omega | exact congrArg (buf row) (by omega)

theorem newLineRows_eval (buf : Buffer) (n : Nat) :
    ∀ r c, c < BUFFER_WIDTH → newLineRows buf n r c =
      if r < n then buf (r + 1) c else buf r c := by
  induction n with
  | zero => intro r c _; simp [newLineRows]
  | succ n ih =>
    intro r c hc
    simp only [newLineRows]
    rw [copyRowCols_eval _ _ (by omega)]
    by_cases hr : r = n
    · subst hr
      rw [if_pos ⟨rfl, hc⟩, ih _ _ hc, if_neg (by omega), if_pos (by omega)]
    · have : ¬(r = n + 1 - 1 ∧ c < BUFFER_WIDTH) := fun h => hr h.1
      rw [if_neg this, ih _ _ hc]
      split_ifs <;> first | rfl | omega

/-! ## Basic facts about the writer operations -/

theorem new_line_column (w : Writer) : (w.new_line).column_position = 0 := rfl

theorem new_line_color (w : Writer) : (w.new_line).color_code = w.color_code := rfl

theorem clear_row_column (w : Writer) (row : Nat) :
    (w.clear_row row).column_position = w.column_position := rfl

theorem clear_row_color (w : Writer) (row : Nat) :
    (w.clear_row row).color_code = w.color_code := rfl

theorem write_byte_newline (w : Writer) : w.write_byte 10 = w.new_line := rfl

theorem new_line_buffer (w : Writer) (r c : Nat) (hc : c < BUFFER_WIDTH) :
    (w.new_line).buffer r c =
      if r = BUFFER_HEIGHT - 1 then blank w.color_code
      else if r < BUFFER_HEIGHT - 1 then w.buffer (r + 1) c
      else w.buffer r c := by
  show clearRowCols (newLineRows w.buffer (BUFFER_HEIGHT - 1)) (BUFFER_HEIGHT - 1)
      w.color_code BUFFER_WIDTH r c = _
  rw [clearRowCols_eval, newLineRows_eval _ _ _ _ hc]
  split_ifs <;> first | rfl | omega

theorem write_byte_no_scroll (w : Writer) (b : Nat) (hb : b ≠ 10)
    (hcol : w.column_position < BUFFER_WIDTH) :
    w.write_byte b =
      { w with
        buffer := bufWrite w.buffer (BUFFER_HEIGHT - 1) w.column_position ⟨b, w.color_code⟩
        column_position := w.column_position + 1 } := by
  have h2 : ¬(w.column_position ≥ BUFFER_WIDTH) := not_le.mpr hcol
  simp only [Writer.write_byte, if_neg hb, if_neg h2]

theorem write_byte_overflow (w : Writer) (b : Nat) (hb : b ≠ 10)
    (hcol : w.column_position ≥ BUFFER_WIDTH) :
    w.write_byte b =
      { w.new_line with
        buffer := bufWrite (w.new_line).buffer (BUFFER_HEIGHT - 1) 0 ⟨b, w.color_code⟩
        column_position := 1 } := by
  simp only [Writer.write_byte, if_neg hb, if_pos hcol]
  rfl

theorem write_byte_color (w : Writer) (b : Nat) :
    (w.write_byte b).color_code = w.color_code := by
  by_cases hb : b = 10
  · subst hb; rfl
  · by_cases hcol : w.column_position ≥ BUFFER_WIDTH
    · rw [write_byte_overflow w b hb hcol]
      rfl
    · rw [write_byte_no_scroll w b hb (not_le.mp hcol)]

theorem write_bytes_cons (w : Writer) (b : Nat) (rest : List Nat) :
    w.write_bytes (b :: rest) = (w.write_byte b).write_bytes rest := rfl

/-- Writing a run of non-newline bytes that fits in the remaining space of
the bottom row: the cursor advances by the length of the run, the color is
unchanged, the bytes land left-to-right at the bottom row starting at the
initial cursor column, every other cell is untouched, and no scroll
happens. -/
theorem write_bytes_fill (bs : List Nat) :
    ∀ (w : Writer), (∀ b ∈ bs, b ≠ 10) →
      w.column_position + bs.length ≤ BUFFER_WIDTH →
      (w.write_bytes bs).column_position = w.column_position + bs.length ∧
      (w.write_bytes bs).color_code = w.color_code ∧
      (∀ i, (h : i < bs.length) →
        (w.write_bytes bs).buffer (BUFFER_HEIGHT - 1) (w.column_position + i)
          = ⟨bs.get ⟨i, h⟩, w.color_code⟩) ∧
      (∀ r c,
        (r ≠ BUFFER_HEIGHT - 1 ∨ c < w.column_position ∨
          w.column_position + bs.length ≤ c) →
        (w.write_bytes bs).buffer r c = w.buffer r c) ∧
      w.write_bytes_scrolls bs = 0 := by
  induction bs with
  | nil =>
    intro w _ _
    refine ⟨rfl, rfl, ?_, ?_, rfl⟩
    · intro i h; exact absurd h (by simp)
    · intro r c _; rfl
  | cons b rest ih =>
    intro w hnl hlen
    have hb : b ≠ 10 := hnl b (List.mem_cons_self b rest)
    have hlen2 : w.column_position + (rest.length + 1) ≤ BUFFER_WIDTH := by
      simpa using hlen
    have hlenc : (b :: rest).length = rest.length + 1 := by simp
    have hcol : w.column_position < BUFFER_WIDTH := by omega
    have hw1eq := write_byte_no_scroll w b hb hcol
    have h1col : (w.write_byte b).column_position = w.column_position + 1 := by
      rw [hw1eq]
    have h1color : (w.write_byte b).color_code = w.color_code := by rw [hw1eq]
    have h1buf : (w.write_byte b).buffer
        = bufWrite w.buffer (BUFFER_HEIGHT - 1) w.column_position ⟨b, w.color_code⟩ := by
      rw [hw1eq]
    obtain ⟨ihcol, ihcolor, ihfill, ihframe, ihscroll⟩ :=
      ih (w.write_byte b) (fun x hx => hnl x (List.mem_cons_of_mem _ hx))
        (by rw [h1col]; omega)
    rw [write_bytes_cons]
    refine ⟨?_, ?_, ?_, ?_, ?_⟩
    · rw [ihcol, h1col, hlenc]; omega
    · rw [ihcolor, h1color]
    · intro i h
      match i with
      | 0 =>
        rw [ihframe _ _ (Or.inr (Or.inl (by omega))), h1buf]
        have h0 : w.column_position + 0 = w.column_position := rfl
        rw [h0, bufWrite_same]
        rfl
      | j + 1 =>
        have hj : j < rest.length := by rw [hlenc] at h; omega
        have hcell := ihfill j hj
        rw [h1col, h1color] at hcell
        have harith : w.column_position + (j + 1) = w.column_position + 1 + j := by
          omega
        rw [harith]
        exact hcell.trans rfl
    · intro r c hcond
      have hcond1 : r ≠ BUFFER_HEIGHT - 1 ∨ c < (w.write_byte b).column_position ∨
          (w.write_byte b).column_position + rest.length ≤ c := by
        rcases hcond with h | h | h
        · exact Or.inl h
        · exact Or.inr (Or.inl (by omega))
        · rw [hlenc] at h
          exact Or.inr (Or.inr (by omega))
      rw [ihframe r c hcond1, h1buf]
      apply bufWrite_other
      rcases hcond with h | h | h
      · exact fun hk => h hk.1
      · exact fun hk => by omega
      · rw [hlenc] at h
        exact fun hk => by omega
    · show w.write_byte_scrolls b + _ = 0
      rw [ihscroll]
      simp [Writer.write_byte_scrolls, hb, not_le.mpr hcol]

/-- Iterated newlines leave the color unchanged. -/
theorem write_newlines_color (k : Nat) :
    ∀ w : Writer, (w.write_bytes (List.replicate k 10)).color_code = w.color_code := by
  induction k with
  | zero => intro w; rfl
  | succ k ih =>
    intro w
    rw [List.replicate_succ, write_bytes_cons, write_byte_newline, ih, new_line_color]

/-- At least one newline resets the cursor column to 0, and further
newlines keep it there. -/
theorem write_newlines_column (k : Nat) :
    ∀ w : Writer, (w.write_bytes (List.replicate (k + 1) 10)).column_position = 0 := by
  induction k with
  | zero => intro w; rfl
  | succ k ih =>
    intro w
    rw [List.replicate_succ, write_bytes_cons, write_byte_newline]
    exact ih w.new_line

/-- Effect of `k` consecutive newlines on the visible grid: every row is
the row `k` below it in the original grid, and rows with no such source
row are blank in the writer's color. -/
theorem write_newlines_buffer (k : Nat) :
    ∀ (w : Writer) (r c : Nat), r < BUFFER_HEIGHT → c < BUFFER_WIDTH →
      (w.write_bytes (List.replicate k 10)).buffer r c =
        if r + k < BUFFER_HEIGHT then w.buffer (r + k) c
        else blank w.color_code := by
  induction k with
  | zero =>
    intro w r c hr _
    rw [if_pos (by omega)]
    rfl
  | succ k ih =>
    intro w r c hr hc
    rw [List.replicate_succ, write_bytes_cons, write_byte_newline, ih _ _ _ hr hc,
      new_line_color]
    by_cases h1 : r + k < BUFFER_HEIGHT
    · rw [if_pos h1, new_line_buffer _ _ _ hc]
      have hH : BUFFER_HEIGHT = 25 := rfl
      split_ifs <;> first | rfl | omega
    · rw [if_neg h1, if_neg (by omega)]

theorem write_string_color (w : Writer) (s : List Nat) :
    (w.write_string s).color_code = w.color_code := by
  induction s generalizing w with
  | nil => rfl
  | cons b rest ih =>
    show (Writer.write_string _ rest).color_code = _
    by_cases h : (0x20 ≤ b ∧ b ≤ 0x7e) ∨ b = 10
    · simp only [Writer.write_string, List.foldl_cons, if_pos h] at ih ⊢
      rw [ih, write_byte_color]
    · simp only [Writer.write_string, List.foldl_cons, if_neg h] at ih ⊢
      rw [ih, write_byte_color]

theorem write_bytes_append (w : Writer) (l1 l2 : List Nat) :
    w.write_bytes (l1 ++ l2) = (w.write_bytes l1).write_bytes l2 := by
  simp [Writer.write_bytes, List.foldl_append]

/-- `write_string` is iterated `write_byte` over the byte sequence obtained
by the spec-side sanitizer. -/
theorem write_string_eq_sanitized (s : List Nat) :
    ∀ w : Writer, w.write_string s = w.write_bytes (s.map sanitizeSpec) := by
  induction s with
  | nil => intro w; rfl
  | cons b rest ih =>
    intro w
    show (if (0x20 ≤ b ∧ b ≤ 0x7e) ∨ b = 10 then w.write_byte b
        else w.write_byte 0xfe).write_string rest = _
    rw [List.map_cons, write_bytes_cons]
    by_cases h : (0x20 ≤ b ∧ b ≤ 0x7e) ∨ b = 10
    · have hs : sanitizeSpec b = b := by
        simp only [sanitizeSpec]
        rw [if_pos (Or.symm h)]
      rw [if_pos h, ih, hs]
    · have hs : sanitizeSpec b = 0xfe := by
        simp only [sanitizeSpec]
        rw [if_neg (fun hh => h (Or.symm hh))]
      rw [if_neg h, ih, hs]

/-- Each `write_byte` call either resets the cursor column to 0 (newline)
or leaves it at `c + 1` for a column `c` that was below the width when the
cell write happened. -/
theorem write_byte_column_cases (w : Writer) (b : Nat) :
    (w.write_byte b).column_position = 0 ∨
      ∃ c, c < BUFFER_WIDTH ∧ (w.write_byte b).column_position = c + 1 := by
  by_cases hb : b = 10
  · subst hb; exact Or.inl rfl
  · by_cases hov : w.column_position ≥ BUFFER_WIDTH
    · refine Or.inr ⟨0, by decide, ?_⟩
      rw [write_byte_overflow w b hb hov]
    · refine Or.inr ⟨w.column_position, not_le.mp hov, ?_⟩
      rw [write_byte_no_scroll w b hb (not_le.mp hov)]

theorem write_byte_column_le (w : Writer) (b : Nat) :
    (w.write_byte b).column_position ≤ BUFFER_WIDTH := by
  rcases write_byte_column_cases w b with h | ⟨c, hc, h⟩
  · rw [h]; exact Nat.zero_le _
  · rw [h]; omega

theorem write_string_column_le (s : List Nat) :
    ∀ w : Writer, w.column_position ≤ BUFFER_WIDTH →
      (w.write_string s).column_position ≤ BUFFER_WIDTH := by
  induction s with
  | nil => intro w h; exact h
  | cons b rest ih =>
    intro w h
    show (Writer.write_string (if (0x20 ≤ b ∧ b ≤ 0x7e) ∨ b = 10 then w.write_byte b
        else w.write_byte 0xfe) rest).column_position ≤ BUFFER_WIDTH
    split_ifs <;> exact ih _ (write_byte_column_le _ _)

/-! ## Bounds of the instrumented grid accesses -/

theorem clear_row_accesses_bound (row : Nat) (hrow : row < BUFFER_HEIGHT) :
    ∀ p ∈ clear_row_accesses row, p.1 < BUFFER_HEIGHT ∧ p.2 < BUFFER_WIDTH := by
  intro p hp
  simp only [clear_row_accesses, List.mem_map, List.mem_range] at hp
  obtain ⟨c, hc, rfl⟩ := hp
  exact ⟨hrow, hc⟩

theorem new_line_accesses_bound :
    ∀ p ∈ new_line_accesses, p.1 < BUFFER_HEIGHT ∧ p.2 < BUFFER_WIDTH := by
  have hH : BUFFER_HEIGHT = 25 := rfl
  intro p hp
  simp only [new_line_accesses, List.mem_append, List.mem_flatten, List.mem_map,
    List.mem_range] at hp
  rcases hp with ⟨l, ⟨i, hi, rfl⟩, hpl⟩ | hp
  · simp only [rowCopyAccesses, List.mem_append, List.mem_map, List.mem_range] at hpl
    rcases hpl with ⟨c, hc, rfl⟩ | ⟨c, hc, rfl⟩
    · exact ⟨by omega, hc⟩
    · exact ⟨by omega, hc⟩
  · exact clear_row_accesses_bound _ (by omega) p hp

theorem write_byte_accesses_bound (w : Writer) (b : Nat) :
    ∀ p ∈ w.write_byte_accesses b, p.1 < BUFFER_HEIGHT ∧ p.2 < BUFFER_WIDTH := by
  have hH : BUFFER_HEIGHT = 25 := rfl
  have hW : BUFFER_WIDTH = 80 := rfl
  intro p hp
  simp only [Writer.write_byte_accesses] at hp
  split_ifs at hp with h1 h2
  · exact new_line_accesses_bound p hp
  · rcases List.mem_append.mp hp with hp | hp
    · exact new_line_accesses_bound p hp
    · simp only [List.mem_singleton] at hp
      subst hp
      exact ⟨by omega, by omega⟩
  · simp only [List.mem_singleton] at hp
    subst hp
    exact ⟨by omega, by omega⟩

theorem write_string_accesses_bound (s : List Nat) :
    ∀ (w : Writer) (p : Nat × Nat), p ∈ w.write_string_accesses s →
      p.1 < BUFFER_HEIGHT ∧ p.2 < BUFFER_WIDTH := by
  induction s with
  | nil =>
    intro w p hp
    simp [Writer.write_string_accesses] at hp
  | cons b rest ih =>
    intro w p hp
    simp only [Writer.write_string_accesses] at hp
    split_ifs at hp
    · rcases List.mem_append.mp hp with hp | hp
      · exact write_byte_accesses_bound _ _ p hp
      · exact ih _ p hp
    · rcases List.mem_append.mp hp with hp | hp
      · exact write_byte_accesses_bound _ _ p hp
      · exact ih _ p hp

/-! ## The claims -/

/-- Claim C5: for every pair of `Color` values `(f, b)`,
`ColorCode.new f b` produces the byte `(b <<< 4) ||| f`, and decoding the
high nibble of that byte recovers `b` while decoding the low nibble
recovers `f`. -/
theorem C5_colorcode_roundtrip (f b : Color) :
    (ColorCode.new f b).code = ((b.toNat <<< 4) ||| f.toNat) ∧
    (ColorCode.new f b).code / 16 = b.toNat ∧
    (ColorCode.new f b).code % 16 = f.toNat := by
  cases f <;> cases b <;> decide

/-- Claim C8: the formatted-output adapter always succeeds — `write_str`
returns `Ok(())` for every input string, so the `unwrap` inside `_print`
never takes its panic branch. -/
theorem C8_write_str_ok (w : Writer) (s : List Nat) :
    (w.write_str s).2 = Except.ok () ∧
    w.print_unwrap s = some (w.write_string s) :=
  ⟨rfl, rfl⟩

/-- Claim C7: `println!()` with no formatted arguments sends exactly the
newline byte through the writer: the result is exactly one
scroll-and-reset (`new_line`), the scroll count of the write is 1, the
freshly cleared bottom row holds only blank cells, and the cursor column
is 0. -/
theorem C7_println_empty (w : Writer) :
    w.println_no_args = some w.new_line ∧
    w.write_string_scrolls [10] = 1 ∧
    (∀ c, c < BUFFER_WIDTH →
      (w.new_line).buffer (BUFFER_HEIGHT - 1) c = blank w.color_code) ∧
    (w.new_line).column_position = 0 := by
  refine ⟨rfl, rfl, ?_, rfl⟩
  intro c hc
  rw [new_line_buffer _ _ _ hc, if_pos rfl]

/-- Witness for C7 at a concrete writer and column. -/
theorem C7_println_empty_witness :
    ((initialWriter blankBuffer).new_line).buffer 24 5
      = blank (ColorCode.new Color.Yellow Color.Black) :=
  (C7_println_empty (initialWriter blankBuffer)).2.2.1 5 (by decide)

/-- Claim C2: `write_byte` on the newline byte always performs the scroll:
each cell of row `r` (for `r` from 1 to height−1) ends up in row `r − 1`,
the last row is overwritten with blank cells in the writer's current
color, the cursor column is reset to 0, and the prior contents of the top
row do not influence the result. -/
theorem C2_newline_scroll (w : Writer) :
    w.write_byte 10 = w.new_line ∧
    (∀ r c, 1 ≤ r → r < BUFFER_HEIGHT → c < BUFFER_WIDTH →
      (w.write_byte 10).buffer (r - 1) c = w.buffer r c) ∧
    (∀ c, c < BUFFER_WIDTH →
      (w.write_byte 10).buffer (BUFFER_HEIGHT - 1) c = ⟨32, w.color_code⟩) ∧
    (w.write_byte 10).column_position = 0 ∧
    (∀ buf2 : Buffer, (∀ r c, 1 ≤ r → buf2 r c = w.buffer r c) →
      ∀ r c, r < BUFFER_HEIGHT → c < BUFFER_WIDTH →
        ({ w with buffer := buf2 } : Writer).new_line.buffer r c
          = (w.new_line).buffer r c) := by
  refine ⟨rfl, ?_, ?_, rfl, ?_⟩
  · intro r c h1 h2 hc
    rw [write_byte_newline, new_line_buffer _ _ _ hc, if_neg (by omega),
      if_pos (by omega)]
    exact congrArg (fun x => w.buffer x c) (by omega)
  · intro c hc
    rw [write_byte_newline, new_line_buffer _ _ _ hc, if_pos rfl]
    rfl
  · intro buf2 hagree r c hr hc
    rw [new_line_buffer _ _ _ hc, new_line_buffer _ _ _ hc]
    split_ifs <;> first | rfl | (exact hagree _ _ (by omega))

/-- Witness for C2 at a concrete writer, rows and columns. -/
theorem C2_newline_scroll_witness :
    ((initialWriter markedBuffer).write_byte 10).buffer 4 7
        = (initialWriter markedBuffer).buffer 5 7 ∧
    ((initialWriter markedBuffer).write_byte 10).buffer 24 0
        = ⟨32, ColorCode.new Color.Yellow Color.Black⟩ ∧
    ({ initialWriter markedBuffer with buffer := markedBuffer } : Writer).new_line.buffer 3 2
        = ((initialWriter markedBuffer).new_line).buffer 3 2 :=
  ⟨(C2_newline_scroll _).2.1 5 7 (by decide) (by decide) (by decide),
   (C2_newline_scroll _).2.2.1 0 (by decide),
   (C2_newline_scroll _).2.2.2.2 markedBuffer (fun _ _ _ => rfl) 3 2 (by decide) (by decide)⟩

/-- Claim C10: with the cursor strictly inside the row, `write_byte` on a
non-newline byte writes exactly the one cell at the bottom row and the
cursor column, changes no other cell, advances the cursor by one, and no
writer operation ever changes the `color_code` field. -/
theorem C10_write_byte_frame (w : Writer) (b : Nat) (hb : b ≠ 10)
    (hcol : w.column_position < BUFFER_WIDTH) :
    (w.write_byte b).buffer (BUFFER_HEIGHT - 1) w.column_position = ⟨b, w.color_code⟩ ∧
    (∀ r c, ¬(r = BUFFER_HEIGHT - 1 ∧ c = w.column_position) →
      (w.write_byte b).buffer r c = w.buffer r c) ∧
    (w.write_byte b).column_position = w.column_position + 1 ∧
    (w.write_byte b).color_code = w.color_code ∧
    (∀ s, (w.write_string s).color_code = w.color_code) ∧
    (w.new_line).color_code = w.color_code ∧
    (∀ row, (w.clear_row row).color_code = w.color_code) := by
  rw [write_byte_no_scroll w b hb hcol]
  refine ⟨bufWrite_same _ _ _ _, ?_, rfl, rfl, fun s => write_string_color w s, rfl,
    fun row => rfl⟩
  intro r c h
  exact bufWrite_other _ _ _ _ _ _ h

/-- Claim C4: the cursor invariant `column_position ≤ BUFFER_WIDTH` is
preserved by every writer operation; the column after `write_byte` is
either 0 or `c + 1` for a column `c` that was checked to be below the
width; and every grid access performed by the operations uses a row index
below `BUFFER_HEIGHT` and a column index below `BUFFER_WIDTH`. -/
theorem C4_cursor_invariant (w : Writer) (b : Nat) (s : List Nat)
    (hcol : w.column_position ≤ BUFFER_WIDTH) :
    (w.write_byte b).column_position ≤ BUFFER_WIDTH ∧
    (w.write_string s).column_position ≤ BUFFER_WIDTH ∧
    (w.new_line).column_position = 0 ∧
    (w.clear_row (BUFFER_HEIGHT - 1)).column_position = w.column_position ∧
    ((w.write_byte b).column_position = 0 ∨
      ∃ c, c < BUFFER_WIDTH ∧ (w.write_byte b).column_position = c + 1) ∧
    (∀ p ∈ w.write_byte_accesses b, p.1 < BUFFER_HEIGHT ∧ p.2 < BUFFER_WIDTH) ∧
    (∀ p ∈ w.write_string_accesses s, p.1 < BUFFER_HEIGHT ∧ p.2 < BUFFER_WIDTH) ∧
    (∀ p ∈ new_line_accesses, p.1 < BUFFER_HEIGHT ∧ p.2 < BUFFER_WIDTH) ∧
    (∀ p ∈ clear_row_accesses (BUFFER_HEIGHT - 1),
      p.1 < BUFFER_HEIGHT ∧ p.2 < BUFFER_WIDTH) :=
  ⟨write_byte_column_le w b, write_string_column_le s w hcol, rfl, rfl,
   write_byte_column_cases w b, write_byte_accesses_bound w b,
   fun p hp => write_string_accesses_bound s w p hp, new_line_accesses_bound,
   clear_row_accesses_bound _ (by decide)⟩

/-- Witness for C4 at a concrete writer, byte and string. -/
theorem C4_cursor_invariant_witness :
    ((initialWriter blankBuffer).write_byte 65).column_position ≤ BUFFER_WIDTH ∧
    ((initialWriter blankBuffer).write_string [72, 10, 300]).column_position
        ≤ BUFFER_WIDTH ∧
    (∀ p ∈ (initialWriter blankBuffer).write_byte_accesses 65,
      p.1 < BUFFER_HEIGHT ∧ p.2 < BUFFER_WIDTH) :=
  ⟨(C4_cursor_invariant _ 65 [72, 10, 300] (by decide)).1,
   (C4_cursor_invariant _ 65 [72, 10, 300] (by decide)).2.1,
   (C4_cursor_invariant _ 65 [72, 10, 300] (by decide)).2.2.2.2.2.1⟩

/-- Claim C3: `write_string` forwards newline and printable-ASCII bytes to
`write_byte` unchanged and substitutes the fallback glyph 0xFE for every
other byte, so an unprintable byte is recorded in the grid as 0xFE paired
with the writer's current color code. -/
theorem C3_write_string_sanitizes (w : Writer) (s : List Nat) (b : Nat)
    (hb : ¬(b = 10 ∨ (0x20 ≤ b ∧ b ≤ 0x7e)))
    (hcol : w.column_position < BUFFER_WIDTH) :
    w.write_string s = w.write_bytes (s.map sanitizeSpec) ∧
    (w.write_string [b]).buffer (BUFFER_HEIGHT - 1) w.column_position
      = ⟨0xfe, w.color_code⟩ := by
  refine ⟨write_string_eq_sanitized s w, ?_⟩
  show (if (0x20 ≤ b ∧ b ≤ 0x7e) ∨ b = 10 then w.write_byte b
      else w.write_byte 0xfe).buffer (BUFFER_HEIGHT - 1) w.column_position = _
  rw [if_neg (fun hh => hb (Or.symm hh)),
    write_byte_no_scroll w 0xfe (by decide) hcol]
  exact bufWrite_same _ _ _ _

/-- Witness for C3 at a concrete writer, string and unprintable byte. -/
theorem C3_write_string_sanitizes_witness :
    (initialWriter blankBuffer).write_string [65, 256, 10]
        = (initialWriter blankBuffer).write_bytes ([65, 256, 10].map sanitizeSpec) ∧
    ((initialWriter blankBuffer).write_string [7]).buffer 24 0
      = ⟨0xfe, ColorCode.new Color.Yellow Color.Black⟩ :=
  ⟨(C3_write_string_sanitizes _ [65, 256, 10] 7 (by decide) (by decide)).1,
   (C3_write_string_sanitizes _ [65, 256, 10] 7 (by decide) (by decide)).2⟩

/-- Claim C1: from cursor column 0, writing exactly `BUFFER_WIDTH`
non-newline printable bytes fills the bottom row left to right with no
scroll and leaves the cursor at the width; one further non-newline byte
triggers exactly one scroll and is placed at column 0 of the freshly
cleared bottom row, with the cursor at 1. -/
theorem C1_fill_row_then_scroll (w : Writer) (bs : List Nat) (b1 : Nat)
    (hcol : w.column_position = 0)
    (hlen : bs.length = BUFFER_WIDTH)
    (hbs : ∀ x ∈ bs, x ≠ 10 ∧ 0x20 ≤ x ∧ x ≤ 0x7e)
    (hb1 : b1 ≠ 10) (_hb1p : 0x20 ≤ b1 ∧ b1 ≤ 0x7e) :
    w.write_bytes_scrolls bs = 0 ∧
    (∀ i, (h : i < bs.length) →
      (w.write_bytes bs).buffer (BUFFER_HEIGHT - 1) i
        = ⟨bs.get ⟨i, h⟩, w.color_code⟩) ∧
    (w.write_bytes bs).column_position = BUFFER_WIDTH ∧
    (w.write_bytes bs).write_byte_scrolls b1 = 1 ∧
    ((w.write_bytes bs).write_byte b1).buffer (BUFFER_HEIGHT - 1) 0
      = ⟨b1, w.color_code⟩ ∧
    (∀ c, 1 ≤ c → c < BUFFER_WIDTH →
      ((w.write_bytes bs).write_byte b1).buffer (BUFFER_HEIGHT - 1) c
        = blank w.color_code) ∧
    ((w.write_bytes bs).write_byte b1).column_position = 1 := by
  obtain ⟨fcol, fcolor, ffill, fframe, fscroll⟩ :=
    write_bytes_fill bs w (fun x hx => (hbs x hx).1) (by omega)
  have hWc : (w.write_bytes bs).column_position = BUFFER_WIDTH := by
    rw [fcol]; omega
  have hov : (w.write_bytes bs).column_position ≥ BUFFER_WIDTH := le_of_eq hWc.symm
  have hovr := write_byte_overflow (w.write_bytes bs) b1 hb1 hov
  refine ⟨fscroll, ?_, hWc, ?_, ?_, ?_, ?_⟩
  · intro i h
    have hcell := ffill i h
    rw [hcol] at hcell
    simpa using hcell
  · simp only [Writer.write_byte_scrolls]
    rw [if_neg hb1, if_pos hov]
  · rw [hovr]
    show bufWrite ((w.write_bytes bs).new_line.buffer) (BUFFER_HEIGHT - 1) 0
        ⟨b1, (w.write_bytes bs).color_code⟩ (BUFFER_HEIGHT - 1) 0 = _
    rw [bufWrite_same, fcolor]
  · intro c h1 hc
    rw [hovr]
    show bufWrite ((w.write_bytes bs).new_line.buffer) (BUFFER_HEIGHT - 1) 0
        ⟨b1, (w.write_bytes bs).color_code⟩ (BUFFER_HEIGHT - 1) c = _
    rw [bufWrite_other _ _ _ _ _ _ (fun hk => by omega),
      new_line_buffer _ _ _ hc, if_pos rfl, fcolor]
  · rw [hovr]

/-- Witness for C1 at a concrete writer and a row of 80 bytes. -/
theorem C1_fill_row_then_scroll_witness :
    ((initialWriter blankBuffer).write_bytes (List.replicate 80 65)).column_position
        = BUFFER_WIDTH ∧
    (((initialWriter blankBuffer).write_bytes (List.replicate 80 65)).write_byte 66).buffer
        24 0 = ⟨66, ColorCode.new Color.Yellow Color.Black⟩ ∧
    (((initialWriter blankBuffer).write_bytes
        (List.replicate 80 65)).write_byte 66).column_position = 1 :=
  ⟨(C1_fill_row_then_scroll _ (List.replicate 80 65) 66 rfl (by decide) (by decide)
      (by decide) (by decide)).2.2.1,
   (C1_fill_row_then_scroll _ (List.replicate 80 65) 66 rfl (by decide) (by decide)
      (by decide) (by decide)).2.2.2.2.1,
   (C1_fill_row_then_scroll _ (List.replicate 80 65) 66 rfl (by decide) (by decide)
      (by decide) (by decide)).2.2.2.2.2.2⟩

/-- Claim C6 (amended): from any writer state whose bottom row is entirely
blank in the writer's current color, writing `BUFFER_HEIGHT - 1` newline
bytes followed by one line of at most `BUFFER_WIDTH` printable non-newline
bytes leaves that text at the start of the last row, the rest of the last
row blank, and every row above it blank. -/
theorem C6_last_line_roundtrip (w : Writer) (bs : List Nat)
    (hblank : ∀ c, c < BUFFER_WIDTH →
      w.buffer (BUFFER_HEIGHT - 1) c = blank w.color_code)
    (hbs : ∀ x ∈ bs, x ≠ 10 ∧ 0x20 ≤ x ∧ x ≤ 0x7e)
    (hlen : bs.length ≤ BUFFER_WIDTH) :
    (∀ i, (h : i < bs.length) →
      (w.write_bytes (List.replicate (BUFFER_HEIGHT - 1) 10 ++ bs)).buffer
          (BUFFER_HEIGHT - 1) i = ⟨bs.get ⟨i, h⟩, w.color_code⟩) ∧
    (∀ c, bs.length ≤ c → c < BUFFER_WIDTH →
      (w.write_bytes (List.replicate (BUFFER_HEIGHT - 1) 10 ++ bs)).buffer
          (BUFFER_HEIGHT - 1) c = blank w.color_code) ∧
    (∀ r c, r < BUFFER_HEIGHT - 1 → c < BUFFER_WIDTH →
      (w.write_bytes (List.replicate (BUFFER_HEIGHT - 1) 10 ++ bs)).buffer r c
        = blank w.color_code) := by
  have hH : BUFFER_HEIGHT = 25 := rfl
  rw [write_bytes_append]
  set wN := w.write_bytes (List.replicate (BUFFER_HEIGHT - 1) 10) with hwN
  have hNcol : wN.column_position = 0 := write_newlines_column (BUFFER_HEIGHT - 2) w
  have hNcolor : wN.color_code = w.color_code := write_newlines_color _ w
  have hNbuf : ∀ r c, r < BUFFER_HEIGHT → c < BUFFER_WIDTH →
      wN.buffer r c = blank w.color_code := by
    intro r c hr hc
    rw [hwN, write_newlines_buffer _ _ _ _ hr hc]
    by_cases h0 : r + (BUFFER_HEIGHT - 1) < BUFFER_HEIGHT
    · rw [if_pos h0]
      have hr0 : r = 0 := by omega
      subst hr0
      have harr : 0 + (BUFFER_HEIGHT - 1) = BUFFER_HEIGHT - 1 := by omega
      rw [harr]
      exact hblank c hc
    · rw [if_neg h0]
  obtain ⟨fcol, fcolor, ffill, fframe, fscroll⟩ :=
    write_bytes_fill bs wN (fun x hx => (hbs x hx).1) (by omega)
  refine ⟨?_, ?_, ?_⟩
  · intro i h
    simpa [hNcol, hNcolor] using ffill i h
  · intro c h1 hc
    rw [fframe _ _ (Or.inr (Or.inr (by omega)))]
    exact hNbuf _ _ (by omega) hc
  · intro r c hr hc
    rw [fframe _ _ (Or.inl (by omega))]
    exact hNbuf _ _ (by omega) hc

/-- Counterexample to C6 as stated: from a writer whose bottom row is not
blank (the bottom-left cell holds glyph 65), writing height−1 newlines and
then the one-byte line [66] leaves glyph 65 — not a blank — at the
top-left cell, a row above the last. -/
theorem C6_counterexample :
    ((initialWriter markedBuffer).write_bytes
        (List.replicate (BUFFER_HEIGHT - 1) 10 ++ [66])).buffer 0 0
      = ⟨65, ColorCode.new Color.Yellow Color.Black⟩ ∧
    (⟨65, ColorCode.new Color.Yellow Color.Black⟩ : ScreenChar)
      ≠ blank (ColorCode.new Color.Yellow Color.Black) := by
  constructor
  · rw [write_bytes_append]
    obtain ⟨fcol, fcolor, ffill, fframe, fscroll⟩ :=
      write_bytes_fill [66]
        ((initialWriter markedBuffer).write_bytes (List.replicate (BUFFER_HEIGHT - 1) 10))
        (by decide)
        (by
          have hNcol : ((initialWriter markedBuffer).write_bytes
              (List.replicate (BUFFER_HEIGHT - 1) 10)).column_position = 0 :=
            write_newlines_column (BUFFER_HEIGHT - 2) (initialWriter markedBuffer)
          rw [hNcol]
          decide)
    rw [fframe 0 0 (Or.inl (by decide)),
      write_newlines_buffer _ _ _ _ (by decide) (by decide), if_pos (by decide)]
    decide
  · decide

/-- Witness for C6 at a concrete all-blank writer and the two-byte line [67, 68]. -/
theorem C6_last_line_roundtrip_witness :
    ((initialWriter blankBuffer).write_bytes
        (List.replicate (BUFFER_HEIGHT - 1) 10 ++ [67, 68])).buffer 24 0
      = ⟨67, ColorCode.new Color.Yellow Color.Black⟩ ∧
    ((initialWriter blankBuffer).write_bytes
        (List.replicate (BUFFER_HEIGHT - 1) 10 ++ [67, 68])).buffer 24 10
      = blank (ColorCode.new Color.Yellow Color.Black) ∧
    ((initialWriter blankBuffer).write_bytes
        (List.replicate (BUFFER_HEIGHT - 1) 10 ++ [67, 68])).buffer 3 5
      = blank (ColorCode.new Color.Yellow Color.Black) :=
  ⟨(C6_last_line_roundtrip _ [67, 68] (fun _ _ => rfl) (by decide) (by decide)).1
      0 (by decide),
   (C6_last_line_roundtrip _ [67, 68] (fun _ _ => rfl) (by decide) (by decide)).2.1
      10 (by decide) (by decide),
   (C6_last_line_roundtrip _ [67, 68] (fun _ _ => rfl) (by decide) (by decide)).2.2
      3 5 (by decide) (by decide)⟩

/-- Witness for C10 at a concrete writer and byte. -/
theorem C10_write_byte_frame_witness :
    ((initialWriter blankBuffer).write_byte 72).buffer 24 0
        = ⟨72, ColorCode.new Color.Yellow Color.Black⟩ ∧
    ((initialWriter blankBuffer).write_byte 72).buffer 3 9
        = (initialWriter blankBuffer).buffer 3 9 ∧
    ((initialWriter blankBuffer).write_byte 72).column_position = 1 :=
  ⟨(C10_write_byte_frame _ 72 (by decide) (by decide)).1,
   (C10_write_byte_frame _ 72 (by decide) (by decide)).2.1 3 9 (by decide),
   (C10_write_byte_frame _ 72 (by decide) (by decide)).2.2.1⟩

end BoredOS
